import Mathlib

set_option maxRecDepth 100000

/-!
Verification of the IntentFlow workflow validator
(`tools/validator/validate.py`).

The validator is a two-pass pipeline: a regex-driven document parser
(`WorkflowValidator._parse_document` / `_parse_step` / `_parse_meta`)
followed by a rule engine (`_validate_structure`, `_validate_steps`,
`_validate_step_flow`).  This file embeds both passes as executable
Lean functions over `List Char` and proves properties of them.

The Python regexes are embedded as explicit scanning functions with the
same semantics on the relevant character class (ASCII): leftmost-first
search, greedy/lazy quantifier behaviour (including the backtracking of
`\s*\n` to the last newline of a whitespace run), lookahead section
terminators, and `re.finditer`'s resume-after-match position.  Python's
`\s` is modelled by `pyWs`, `\w` by `isWordCh`, `\d` by `isDigitChar`,
all on their ASCII ranges.
-/

/-- ASCII whitespace, as matched by Python's `\s` class and stripped by
`str.strip()`. -/
def pyWs (c : Char) : Bool :=
  c = ' ' || c = '\t' || c = '\n' || c = '\r' || c = '\x0b' || c = '\x0c'

/-- ASCII decimal digit, as matched by Python's `\d`. -/
def isDigitChar (c : Char) : Bool := '0' ≤ c && c ≤ '9'

/-- ASCII word character, as matched by Python's `\w`. -/
def isWordCh (c : Char) : Bool :=
  ('a' ≤ c && c ≤ 'z') || ('A' ≤ c && c ≤ 'Z') || isDigitChar c || c = '_'

/-- ASCII lower-casing, as used by `str.lower()` and `re.IGNORECASE`. -/
def lowerChar (c : Char) : Char :=
  if 'A' ≤ c ∧ c ≤ 'Z' then Char.ofNat (c.toNat + 32) else c

/-- Pack a character list back into a `String`. -/
def strOf (cs : List Char) : String := String.mk cs

/-- `str.lstrip()` restricted to ASCII whitespace. -/
def pyLstrip (cs : List Char) : List Char := cs.dropWhile pyWs

/-- `str.rstrip()` restricted to ASCII whitespace. -/
def pyRstrip (cs : List Char) : List Char := (cs.reverse.dropWhile pyWs).reverse

/-- `str.strip()` restricted to ASCII whitespace. -/
def pyStrip (cs : List Char) : List Char := pyRstrip (pyLstrip cs)

/-- `str.lstrip(set)`: drop leading characters belonging to `set`. -/
def lstripCh (set : List Char) (cs : List Char) : List Char :=
  cs.dropWhile (fun c => set.contains c)

/-- `str.rstrip(set)`: drop trailing characters belonging to `set`. -/
def rstripCh (set : List Char) (cs : List Char) : List Char :=
  (cs.reverse.dropWhile (fun c => set.contains c)).reverse

/-- `str.strip(set)`. -/
def stripCh (set : List Char) (cs : List Char) : List Char :=
  rstripCh set (lstripCh set cs)

/-- `str.split('\n')`: Python keeps empty segments. -/
def splitNl : List Char → List (List Char)
  | [] => [[]]
  | c :: rest =>
    if c = '\n' then [] :: splitNl rest
    else
      match splitNl rest with
      | l :: ls => (c :: l) :: ls
      | [] => [[c]]

/-- Literal (case-sensitive) prefix test. -/
def litPre : List Char → List Char → Bool
  | [], _ => true
  | _ :: _, [] => false
  | p :: ps, c :: cs => p = c && litPre ps cs

/-- Match `w` (given lower-cased) as a case-insensitive prefix and
return the remainder, mirroring a literal word inside an
`re.IGNORECASE` pattern. -/
def matchWordCi : List Char → List Char → Option (List Char)
  | [], cs => some cs
  | _ :: _, [] => none
  | w :: ws, c :: cs => if lowerChar c = w then matchWordCi ws cs else none

/-- `\s+` followed by the literal word `w` (case-insensitive).  The run
is maximal; since `w` starts with a non-whitespace character the greedy
match is deterministic. -/
def wsPlusThen (w : List Char) (cs : List Char) : Option (List Char) :=
  match cs with
  | [] => none
  | c :: rest => if pyWs c then matchWordCi w (rest.dropWhile pyWs) else none

/-- A sequence of words each preceded by `\s+`, as in
`If\s+something\s+goes\s+wrong`. -/
def wordsThen : List (List Char) → List Char → Option (List Char)
  | [], cs => some cs
  | w :: ws, cs =>
    match wsPlusThen w cs with
    | some r => wordsThen ws r
    | none => none

/-- `\s*\n`: the greedy `\s*` backtracks so that the required `\n`
consumes the last newline of the whitespace run; fails when the run
contains no newline. -/
def wsStarNl : List Char → Option (List Char)
  | [] => none
  | c :: rest =>
    if c = '\n' then
      match wsStarNl rest with
      | some r => some r
      | none => some rest
    else if pyWs c then wsStarNl rest
    else none

/-- `\s+` then a maximal nonempty digit run `(\d+)`; returns the digit
capture and the remainder. -/
def wsPlusDigits (cs : List Char) : Option (List Char × List Char) :=
  match cs with
  | [] => none
  | c :: rest =>
    if pyWs c then
      let r := rest.dropWhile pyWs
      let ds := r.takeWhile isDigitChar
      if ds.isEmpty then none else some (ds, r.drop ds.length)
    else none

/-- Lazy capture `(.*?)(?=stop|\Z)` (DOTALL): the shortest prefix whose
remainder satisfies `stop`, defaulting to the whole input at
end-of-string. -/
def lazyCapture (stop : List Char → Bool) : List Char → List Char
  | [] => []
  | c :: rest => if stop (c :: rest) then [] else c :: lazyCapture stop rest

/-- Like `lazyCapture` but also returns the unconsumed remainder (the
lookahead is not consumed, matching `re.finditer` resumption). -/
def lazySplit (stop : List Char → Bool) : List Char → List Char × List Char
  | [] => ([], [])
  | c :: rest =>
    if stop (c :: rest) then ([], c :: rest)
    else
      match lazySplit stop rest with
      | (a, b) => (c :: a, b)

/-! ## Title extraction

`re.search(r'^#\s+(?:Workflow:\s*)?(.+)$', content, re.MULTILINE)` —
note: this pattern carries no `re.IGNORECASE` flag, so the
`Workflow:` label is matched case-sensitively. -/

/-- `.` run for `(.+)$` without DOTALL: maximal run of non-newline
characters (the following position is then a newline or end of string,
so `$` always holds). -/
def dotRun (cs : List Char) : List Char := cs.takeWhile (fun c => c ≠ '\n')

/-- `\s*(.+)$`: greedy `\s*`, backtracking until the nonempty `(.+)`
capture can start on a non-newline character. -/
def wsStarDotPlus : List Char → Option (List Char)
  | [] => none
  | c :: rest =>
    if pyWs c then
      match wsStarDotPlus rest with
      | some r => some r
      | none => if c = '\n' then none else some (dotRun (c :: rest))
    else some (dotRun (c :: rest))

/-- The case-sensitive literal label `Workflow:`. -/
def wfLabel : List Char := ("Workflow:").data

/-- `(.+)$` alone, for the branch in which the optional label group is
not taken. -/
def titleNoLabel (cs : List Char) : Option (List Char) :=
  if (dotRun cs).isEmpty then none else some (dotRun cs)

/-- `(?:Workflow:\s*)?(.+)$`: the optional label branch is preferred;
on its failure the label text itself is captured by `(.+)`. -/
def titleCont (cs : List Char) : Option (List Char) :=
  if litPre wfLabel cs then
    match wsStarDotPlus (cs.drop wfLabel.length) with
    | some r => some r
    | none => titleNoLabel cs
  else titleNoLabel cs

/-- `\s+` before `titleCont`, with the greedy run backtracking (the
continuation can start on a whitespace character via `(.+)`). -/
def titleWsMore : List Char → Option (List Char)
  | [] => titleCont []
  | c :: rest =>
    if pyWs c then
      match titleWsMore rest with
      | some r => some r
      | none => titleCont (c :: rest)
    else titleCont (c :: rest)

/-- Attempt the title pattern at a line start: `#` then `\s+` then the
optional label and capture. -/
def titleTryAt : List Char → Option (List Char)
  | '#' :: c :: rest => if pyWs c then titleWsMore rest else none
  | _ => none

/-- Scan the remaining line starts (each position after a `'\n'`). -/
def titleScanAux : List Char → Option (List Char)
  | [] => none
  | c :: rest =>
    if c = '\n' then
      match titleTryAt rest with
      | some r => some r
      | none => titleScanAux rest
    else titleScanAux rest

/-- Leftmost `re.MULTILINE` search for the title pattern: position 0,
then every position following a newline. -/
def titleScan (cs : List Char) : Option (List Char) :=
  match titleTryAt cs with
  | some r => some r
  | none => titleScanAux cs

/-! ## Second-level section extraction (Meta, Context)

`re.search(r'##\s+Word\s*\n(.*?)(?=\n##|\n---|\Z)', content,
re.DOTALL | re.IGNORECASE)` — the pattern is unanchored, so it may
match at any position of the content. -/

/-- The `(?=\n##|\n---|\Z)` lookahead of the Meta/Context patterns
(`\Z` is handled by `lazyCapture` at end of input). -/
def stopSec2 (cs : List Char) : Bool :=
  litPre (("\n##").data) cs || litPre (("\n---").data) cs

/-- Attempt `##\s+word\s*\n(.*?)(?=\n##|\n---|\Z)` at this position,
returning the lazy body capture. -/
def sec2TryOne (word : List Char) : List Char → Option (List Char)
  | '#' :: '#' :: rest =>
    match wsPlusThen word rest with
    | some r =>
      match wsStarNl r with
      | some body => some (lazyCapture stopSec2 body)
      | none => none
    | none => none
  | _ => none

/-- Leftmost unanchored search for a second-level section. -/
def sec2Search (word : List Char) : List Char → Option (List Char)
  | [] => none
  | c :: rest =>
    match sec2TryOne word (c :: rest) with
    | some r => some r
    | none => sec2Search word rest

/-! ## Finalization extraction

`re.search(r'##\s+Finalization\s*\n(.*)$', content,
re.DOTALL | re.IGNORECASE)` — with DOTALL and no MULTILINE, `(.*)$`
greedily captures everything to the end of the content. -/

/-- Attempt the Finalization pattern at this position; the capture is
the entire remainder of the content. -/
def finalTryOne : List Char → Option (List Char)
  | '#' :: '#' :: rest =>
    match wsPlusThen (("finalization").data) rest with
    | some r => wsStarNl r
    | none => none
  | _ => none

/-- Leftmost search for the Finalization pattern. -/
def finalSearch : List Char → Option (List Char)
  | [] => none
  | c :: rest =>
    match finalTryOne (c :: rest) with
    | some r => some r
    | none => finalSearch rest

/-! ## Step extraction

`re.finditer(r'##\s+Step\s+(\d+)[:\s]+(.+?)\n(.*?)(?=\n##\s+Step|\n##\s+Finalization|\Z)',
content, re.DOTALL | re.IGNORECASE)`. -/

/-- A character of the `[:\s]` class. -/
def isColonWs (c : Char) : Bool := c = ':' || pyWs c

/-- `(.+?)\n` under DOTALL: minimal nonempty capture up to and
including the first newline at index ≥ 1. -/
def dotPlusNl (cs : List Char) : Option (List Char × List Char) :=
  match cs with
  | [] => none
  | c :: rest =>
    if rest.contains '\n' then
      some (c :: rest.takeWhile (fun x => x ≠ '\n'),
            (rest.dropWhile (fun x => x ≠ '\n')).drop 1)
    else none

/-- `[:\s]*` continuation of `colonWsTitle`: greedily extend the class
run, falling back to starting the `(.+?)\n` capture here. -/
def colonWsMore : List Char → Option (List Char × List Char)
  | [] => none
  | c :: rest =>
    if isColonWs c then
      match colonWsMore rest with
      | some r => some r
      | none => dotPlusNl (c :: rest)
    else dotPlusNl (c :: rest)

/-- `[:\s]+(.+?)\n`: at least one class character, then the lazy title
capture and its terminating newline. -/
def colonWsTitle (cs : List Char) : Option (List Char × List Char) :=
  match cs with
  | [] => none
  | c :: rest => if isColonWs c then colonWsMore rest else none

/-- The `(?=\n##\s+Step|\n##\s+Finalization|\Z)` lookahead bounding a
step body. -/
def stopStep (cs : List Char) : Bool :=
  match cs with
  | '\n' :: '#' :: '#' :: rest =>
    (wsPlusThen (("step").data) rest).isSome ||
      (wsPlusThen (("finalization").data) rest).isSome
  | _ => false

/-- Attempt the step pattern at this position; returns the digit
capture, the raw title capture, the body capture and the resumption
point for `re.finditer`. -/
def tryStepAt (cs : List Char) : Option (List Char × List Char × List Char × List Char) :=
  if litPre (("##").data) cs then
    match wsPlusThen (("step").data) (cs.drop 2) with
    | some r1 =>
      match wsPlusDigits r1 with
      | some (digits, r2) =>
        match colonWsTitle r2 with
        | some (titleCap, r3) =>
          some (digits, titleCap, (lazySplit stopStep r3).1, (lazySplit stopStep r3).2)
        | none => none
      | none => none
    | none => none
  else none

/-- `re.finditer` over the step pattern: leftmost matches, resuming
after each match's end.  The fuel argument strictly exceeds the input
length at every call, so it never runs out. -/
def stepsScan : Nat → List Char → List (List Char × List Char × List Char)
  | 0, _ => []
  | _ + 1, [] => []
  | fuel + 1, c :: rest =>
    match tryStepAt (c :: rest) with
    | some (d, t, b, after) => (d, t, b) :: stepsScan fuel after
    | none => stepsScan fuel rest

/-! ## Third-level subsection extraction inside a step body

`re.search(r'###\s+Words...\s*\n(.*?)(?=\n###|\Z)', content,
re.DOTALL | re.IGNORECASE)`. -/

/-- The `(?=\n###|\Z)` lookahead of the subsection patterns. -/
def stopSec3 (cs : List Char) : Bool := litPre (("\n###").data) cs

/-- Attempt `###\s+words\s*\n(.*?)(?=\n###|\Z)` at this position. -/
def sec3TryOne (words : List (List Char)) : List Char → Option (List Char)
  | '#' :: '#' :: '#' :: rest =>
    match wordsThen words rest with
    | some r =>
      match wsStarNl r with
      | some body => some (lazyCapture stopSec3 body)
      | none => none
    | none => none
  | _ => none

/-- Leftmost unanchored search for a third-level subsection. -/
def sec3Search (words : List (List Char)) : List Char → Option (List Char)
  | [] => none
  | c :: rest =>
    match sec3TryOne words (c :: rest) with
    | some r => some r
    | none => sec3Search words rest

/-! ## Save-as extraction

`re.search(r'###\s+Save\s+as\s*\n[`"]?([^`"\n]+)[`"]?', content,
re.IGNORECASE)`. -/

/-- A character accepted by the `[^`"\n]` class. -/
def saveAllowed (c : Char) : Bool := c ≠ '`' && c ≠ '"' && c ≠ '\n'

/-- `[`"]?([^`"\n]+)[`"]?`: the optional opening quote is consumed
greedily; if the capture would then be empty the quote character
itself cannot satisfy the class, so the attempt fails. -/
def savePath (cs : List Char) : Option (List Char) :=
  match cs with
  | [] => none
  | c :: rest =>
    if c = '`' || c = '"' then
      let run := rest.takeWhile saveAllowed
      if run.isEmpty then none else some run
    else
      let run := (c :: rest).takeWhile saveAllowed
      if run.isEmpty then none else some run

/-- Attempt the Save-as pattern at this position. -/
def saveTryOne : List Char → Option (List Char)
  | '#' :: '#' :: '#' :: rest =>
    match wordsThen [("save").data, ("as").data] rest with
    | some r =>
      match wsStarNl r with
      | some r2 => savePath r2
      | none => none
    | none => none
  | _ => none

/-- Leftmost search for the Save-as pattern. -/
def saveSearch : List Char → Option (List Char)
  | [] => none
  | c :: rest =>
    match saveTryOne (c :: rest) with
    | some r => some r
    | none => saveSearch rest

/-! ## Flexibility extraction

`re.search(r'###\s+Flexibility\s*(?:\[(\w+)\])?\s*\n(.*?)(?=\n###|\Z)',
content, re.DOTALL | re.IGNORECASE)`. -/

/-- `\s*(?:\[(\w+)\])?\s*\n(.*?)(?=\n###|\Z)` after the heading word:
the bracketed tag branch is preferred; on any of its failures the
optional group is dropped and `\s*\n` restarts from the heading end. -/
def flexAfter (cs : List Char) : Option (Option (List Char) × List Char) :=
  let noBr : Option (Option (List Char) × List Char) :=
    match wsStarNl cs with
    | some body => some (none, lazyCapture stopSec3 body)
    | none => none
  match cs.dropWhile pyWs with
  | '[' :: rest =>
    let w := rest.takeWhile isWordCh
    if w.isEmpty then noBr
    else
      match rest.drop w.length with
      | ']' :: r2 =>
        match wsStarNl r2 with
        | some body => some (some w, lazyCapture stopSec3 body)
        | none => noBr
      | _ => noBr
  | _ => noBr

/-- Attempt the Flexibility pattern at this position, returning the
optional tag capture and the body capture. -/
def flexTryOne : List Char → Option (Option (List Char) × List Char)
  | '#' :: '#' :: '#' :: rest =>
    match wsPlusThen (("flexibility").data) rest with
    | some r => flexAfter r
    | none => none
  | _ => none

/-- Leftmost search for the Flexibility pattern. -/
def flexSearch : List Char → Option (Option (List Char) × List Char)
  | [] => none
  | c :: rest =>
    match flexTryOne (c :: rest) with
    | some r => some r
    | none => flexSearch rest

/-! ## Fenced code blocks (Dependencies)

`re.findall(r'```(?:bash|sh)?\n(.*?)```', text, re.DOTALL)` — only an
empty fence tag or the literal tags `bash`/`sh` open a block.  The
non-overlapping leftmost `findall` semantics is realised as a two-state
scan: outside a block the three concrete opening fences are tried left
to right (as the alternation orders them) and a failed attempt advances
one position; inside a block the lazy `(.*?)` accumulates characters up
to the first closing fence, and scanning resumes after it.  An
unterminated block fails the match, and since its content contains no
backtick triple, no further position can match either, so the scan
ends. -/

/-- `re.findall` over the fence pattern.  The first argument is the
scanning state: `none` outside any block, `some acc` inside a block
with the (reversed) content accumulated so far. -/
def fenceGo : Option (List Char) → List Char → List (List Char)
  | none, '`' :: '`' :: '`' :: 'b' :: 'a' :: 's' :: 'h' :: '\n' :: rest => fenceGo (some []) rest
  | none, '`' :: '`' :: '`' :: 's' :: 'h' :: '\n' :: rest => fenceGo (some []) rest
  | none, '`' :: '`' :: '`' :: '\n' :: rest => fenceGo (some []) rest
  | none, _ :: rest => fenceGo none rest
  | none, [] => []
  | some acc, '`' :: '`' :: '`' :: rest => acc.reverse :: fenceGo none rest
  | some acc, c :: rest => fenceGo (some (c :: acc)) rest
  | some _, [] => []

/-- The dependency list of a Dependencies capture: each nonblank line
of each code block, stripped, in order
(`[cmd.strip() for block in code_blocks for cmd in block.strip().split('\n') if cmd.strip()]`). -/
def depsOf (cap : List Char) : List String :=
  (fenceGo none cap).flatMap fun blk =>
    (splitNl (pyStrip blk)).filterMap fun cmd =>
      if (pyStrip cmd).isEmpty then none else some (strOf (pyStrip cmd))

/-! ## Bullet lists, error-handling lines, Meta key/value lines -/

/-- One bullet line of a Success-criteria/Constraints capture: kept
when the stripped line starts with `-` or `*`; the value is
`line.strip().lstrip('- ').lstrip('* ')`. -/
def bulletLine (line : List Char) : Option String :=
  let s := pyStrip line
  if s.isEmpty then none
  else if s.head? = some '-' || s.head? = some '*' then
    some (strOf (lstripCh [' ', '*'] (lstripCh [' ', '-'] s)))
  else none

/-- All bullet entries of a capture, in line order. -/
def bullets (cap : List Char) : List String :=
  (splitNl cap).filterMap bulletLine

/-- `'→' in line or '->' in line`. -/
def arrowIn : List Char → Bool
  | [] => false
  | c :: rest => c = '→' || (c = '-' && rest.head? = some '>') || arrowIn rest

/-- `re.split(r'→|->', s)`: split at each leftmost occurrence of either
arrow token. -/
def arrowSplit : List Char → List (List Char)
  | [] => [[]]
  | '→' :: rest => [] :: arrowSplit rest
  | '-' :: '>' :: rest => [] :: arrowSplit rest
  | c :: rest =>
    match arrowSplit rest with
    | l :: ls => (c :: l) :: ls
    | [] => [[c]]

/-- One line of an If-something-goes-wrong capture: considered only
when it contains an arrow token; accepted when splitting
`line.strip().lstrip('- ')` on the arrow yields exactly two parts
(`len(parts) == 2`); both parts are then stripped.  Segment emptiness
is not checked. -/
def errLine (line : List Char) : Option (String × String) :=
  if arrowIn line then
    match arrowSplit (lstripCh [' ', '-'] (pyStrip line)) with
    | [a, b] => some (strOf (pyStrip a), strOf (pyStrip b))
    | _ => none
  else none

/-- All accepted condition/action pairs of a capture, in line order. -/
def errorPairs (cap : List Char) : List (String × String) :=
  (splitNl cap).filterMap errLine

/-- Split a Meta line on its first colon. -/
def splitFirstColon : List Char → Option (List Char × List Char)
  | [] => none
  | c :: rest =>
    if c = ':' then some ([], rest)
    else
      match splitFirstColon rest with
      | some (k, v) => some (c :: k, v)
      | none => none

/-- Python `dict` assignment `meta[key] = value`: replace in place when
the key exists, else append. -/
def dictInsert (k v : String) : List (String × String) → List (String × String)
  | [] => [(k, v)]
  | (k', v') :: t => if k' = k then (k, v) :: t else (k', v') :: dictInsert k v t

/-- `_parse_meta`: each line of the stripped capture containing a colon
is split on the first colon; the key is stripped and lower-cased, the
value stripped. -/
def metaPairs (cap : List Char) : List (String × String) :=
  (splitNl (pyStrip cap)).foldl
    (fun m line =>
      match splitFirstColon line with
      | some (k, v) => dictInsert (strOf ((pyStrip k).map lowerChar)) (strOf (pyStrip v)) m
      | none => m)
    []

/-! ## Data model (`Step`, `Document`, `ValidationResult`) -/

/-- A parsed workflow step (`@dataclass Step`).  `task`, `save_as` and
`flexibility` are `none` when their subsection is absent; the Python
default `flexibility_level` is `"guided"`. -/
structure Step where
  number : Nat
  title : String
  task : Option String
  dependencies : List String
  save_as : Option String
  success_criteria : List String
  flexibility : Option String
  flexibility_level : String
  constraints : List String
  error_handling : List (String × String)
deriving DecidableEq, Repr

/-- The parsed document (the `WorkflowValidator` parse state: `title`,
`meta`, `context`, `steps`, `finalization`). -/
structure Document where
  title : Option String
  meta : List (String × String)
  context : Option String
  steps : List Step
  finalization : Option String
deriving DecidableEq, Repr

/-- The `info` summary of a `ValidationResult`. -/
structure Info where
  title : Option String
  step_count : Nat
  has_meta : Bool
  has_context : Bool
  has_finalization : Bool
deriving DecidableEq, Repr

/-- `ValidationResult`. -/
structure ValidationResult where
  valid : Bool
  errors : List String
  warnings : List String
  info : Info
deriving DecidableEq, Repr

/-! ## `_parse_step` and `_parse_document` -/

/-- `_parse_step`: extract all subsections from a step body. -/
def parseStep (number : Nat) (title : String) (body : List Char) : Step :=
  let flex := flexSearch body
  { number := number
  , title := title
  , task := (sec3Search [("task").data] body).map (fun c => strOf (pyStrip c))
  , dependencies :=
      match sec3Search [("dependencies").data] body with
      | some cap => depsOf cap
      | none => []
  , save_as :=
      (saveSearch body).map (fun r => strOf (stripCh ['`', '"'] (pyStrip r)))
  , success_criteria :=
      match sec3Search [("success").data, ("criteria").data] body with
      | some cap => bullets cap
      | none => []
  , flexibility :=
      match flex with
      | some (_, cap) => some (strOf (pyStrip cap))
      | none => none
  , flexibility_level :=
      match flex with
      | some (some tag, _) => strOf (tag.map lowerChar)
      | _ => ("guided")
  , constraints :=
      match sec3Search [("constraints").data] body with
      | some cap => bullets cap
      | none => []
  , error_handling :=
      match sec3Search [("if").data, ("something").data, ("goes").data, ("wrong").data] body with
      | some cap => errorPairs cap
      | none => [] }

/-- `int()` applied to a `\d+` capture; the only fallible conversion of
the parser. -/
def digitsToNat : List Char → Option Nat
  | [] => none
  | c :: rest =>
    if (c :: rest).all isDigitChar then
      some ((c :: rest).foldl (fun a d => a * 10 + (d.toNat - 48)) 0)
    else none

/-- `Option`-valued `map`, threading the fallible step-number
conversion through the step list. -/
def mapOpt : List α → (α → Option β) → Option (List β)
  | [], _ => some []
  | a :: l, f =>
    match f a with
    | some b =>
      match mapOpt l f with
      | some bs => some (b :: bs)
      | none => none
    | none => none

/-- Build one `Step` from a raw `finditer` match
(`int(match.group(1))`, `match.group(2).strip()`, `match.group(3)`). -/
def stepOfRaw : List Char × List Char × List Char → Option Step
  | (d, t, b) => (digitsToNat d).map fun n => parseStep n (strOf (pyStrip t)) b

/-- The Meta component of `_parse_document` on raw content. -/
def metaOf (content : String) : List (String × String) :=
  match sec2Search (("meta").data) content.data with
  | some cap => metaPairs cap
  | none => []

/-- `_parse_document`: title, Meta, Context, steps, Finalization.
`none` can arise only from the step-number conversion, which in fact
never fails. -/
def parseDocument (content : String) : Option Document :=
  let cs := content.data
  match mapOpt (stepsScan (cs.length + 1) cs) stepOfRaw with
  | some steps =>
    some
      { title := (titleScan cs).map (fun c => strOf (pyStrip c))
      , meta := metaOf content
      , context := (sec2Search (("context").data) cs).map (fun c => strOf (pyStrip c))
      , steps := steps
      , finalization := (finalSearch cs).map (fun c => strOf (pyStrip c)) }
  | none => none

/-! ## Rule engine (`_validate_structure`, `_validate_steps`,
`_validate_step_flow`) -/

/-- Python truthiness of an optional string (`None` and `""` are
falsy). -/
def optTruthy : Option String → Bool
  | none => false
  | some s => s ≠ ""

/-- `VALID_FLEXIBILITY_LEVELS`. -/
def validLevels : List String := [("strict"), ("guided"), ("autonomous")]

/-- `"Missing workflow title (first H1 heading)"`. -/
def titleErrMsg : String := ("Missing workflow title (first H1 heading)")

/-- `"Workflow must contain at least one step"`. -/
def noStepsErrMsg : String := ("Workflow must contain at least one step")

/-- `"Consider adding a Meta section with version and author"`. -/
def metaWarnMsg : String := ("Consider adding a Meta section with version and author")

/-- `"Consider adding a Finalization section"`. -/
def finalWarnMsg : String := ("Consider adding a Finalization section")

/-- `"Duplicate step numbers found"`. -/
def dupErrMsg : String := ("Duplicate step numbers found")

/-- `"Gap in step numbering detected"`. -/
def gapWarnMsg : String := ("Gap in step numbering detected")

/-- `f"Step {n}: Missing required 'Task' section"`. -/
def missingTaskMsg (n : Nat) : String :=
  ("Step ") ++ (toString n ++ (": Missing required 'Task' section"))

/-- `f"Step {n}: Task description seems too brief"`. -/
def briefTaskMsg (n : Nat) : String :=
  ("Step ") ++ (toString n ++ (": Task description seems too brief"))

/-- The invalid-flexibility error message, with the joined level list. -/
def invalidFlexMsg (n : Nat) (lvl : String) : String :=
  ("Step ") ++ (toString n ++ ((": Invalid flexibility level '") ++
    (lvl ++ ("'. Must be one of: strict, guided, autonomous"))))

/-- `f"Step {n}: Consider adding 'Save as' to create contract for next step"`. -/
def noSaveAsMsg (n : Nat) : String :=
  ("Step ") ++ (toString n ++ (": Consider adding 'Save as' to create contract for next step"))

/-- `f"Step {n}: Consider adding 'Success criteria' for verification"`. -/
def noCriteriaMsg (n : Nat) : String :=
  ("Step ") ++ (toString n ++ (": Consider adding 'Success criteria' for verification"))

/-- `f"Step {n}: 'Save as' path should be absolute (start with /)"`. -/
def notAbsMsg (n : Nat) : String :=
  ("Step ") ++ (toString n ++ (": 'Save as' path should be absolute (start with /)"))

/-- Python `str(list_of_ints)`, e.g. `"[1, 3]"`. -/
def pyList (l : List Nat) : String :=
  ("[") ++ (String.intercalate (", ") (l.map toString) ++ ("]"))

/-- The not-sequential warning with found and expected sequences. -/
def seqWarnMsg (found expected : List Nat) : String :=
  ("Step numbers are not sequential. Found: ") ++
    (pyList found ++ ((", Expected: ") ++ pyList expected))

/-- Errors appended by `_validate_structure`. -/
def structureErrors (d : Document) : List String :=
  (if optTruthy d.title then [] else [titleErrMsg]) ++
    (if d.steps.isEmpty then [noStepsErrMsg] else [])

/-- Warnings appended by `_validate_structure`. -/
def structureWarnings (d : Document) : List String :=
  (if d.meta.isEmpty then [metaWarnMsg] else []) ++
    (if optTruthy d.finalization then [] else [finalWarnMsg])

/-- Errors appended by `_validate_steps` for one step. -/
def stepErrors (s : Step) : List String :=
  (if optTruthy s.task then [] else [missingTaskMsg s.number]) ++
    (if validLevels.contains s.flexibility_level then []
     else [invalidFlexMsg s.number s.flexibility_level])

/-- The length of a present task (`len(self.task)`). -/
def taskLen : Option String → Nat
  | none => 0
  | some t => t.length

/-- `step.save_as.startswith('/')`: the first character is a slash. -/
def startsSlash (s : String) : Bool := s.data.head? = some '/'

/-- Warnings appended by `_validate_steps` for one step, given the
total step count. -/
def stepWarnings (s : Step) (total : Nat) : List String :=
  (if optTruthy s.task ∧ taskLen s.task < 10 then [briefTaskMsg s.number] else []) ++
    (if ¬optTruthy s.save_as ∧ s.number < total then [noSaveAsMsg s.number] else []) ++
    (if s.success_criteria.isEmpty then [noCriteriaMsg s.number] else []) ++
    (if optTruthy s.save_as ∧ ¬startsSlash (s.save_as.getD (""))
     then [notAbsMsg s.number] else [])

/-- Concatenate per-step message lists in step order. -/
def flatCat : List (List String) → List String
  | [] => []
  | l :: ls => l ++ flatCat ls

/-- Ascending insertion, implementing Python `sorted` on ints. -/
def insertSorted (n : Nat) : List Nat → List Nat
  | [] => [n]
  | m :: t => if n ≤ m then n :: m :: t else m :: insertSorted n t

/-- Python `sorted(numbers)`. -/
def sortNats : List Nat → List Nat
  | [] => []
  | n :: t => insertSorted n (sortNats t)

/-- `len(numbers) != len(set(numbers))`: some number occurs twice. -/
def hasDupNat : List Nat → Bool
  | [] => false
  | n :: t => t.contains n || hasDupNat t

/-- The first-gap check of `_validate_step_flow` (the loop breaks after
one gap, so at most one warning arises). -/
def hasGap : List Nat → Bool
  | a :: b :: t => b - a > 1 || hasGap (b :: t)
  | _ => false

/-- Errors appended by `_validate_step_flow` (nothing when the step
list is empty: the method returns immediately). -/
def flowErrors (steps : List Step) : List String :=
  if steps.isEmpty then []
  else if hasDupNat (steps.map Step.number) then [dupErrMsg] else []

/-- Warnings appended by `_validate_step_flow`. -/
def flowWarnings (steps : List Step) : List String :=
  if steps.isEmpty then []
  else
    let sorted := sortNats (steps.map Step.number)
    let expected := List.range' 1 steps.length
    (if sorted = expected then [] else [seqWarnMsg sorted expected]) ++
      (if hasGap sorted then [gapWarnMsg] else [])

/-- `WorkflowValidator.validate` on a parsed document: the three rule
passes in order, then the result object. -/
def validateDoc (d : Document) : ValidationResult :=
  let errors := structureErrors d ++ flatCat (d.steps.map stepErrors) ++ flowErrors d.steps
  let warnings := structureWarnings d ++
    flatCat (d.steps.map (fun s => stepWarnings s d.steps.length)) ++ flowWarnings d.steps
  { valid := errors.isEmpty
  , errors := errors
  , warnings := warnings
  , info :=
      { title := d.title
      , step_count := d.steps.length
      , has_meta := !d.meta.isEmpty
      , has_context := optTruthy d.context
      , has_finalization := optTruthy d.finalization } }

/-- The full pipeline on raw text: parse, then run the rule engine. -/
def validate (content : String) : Option ValidationResult :=
  (parseDocument content).map validateDoc

/-- Number of occurrences of a message in a message list. -/
def countOcc (m : String) : List String → Nat
  | [] => 0
  | x :: t => (if x = m then 1 else 0) + countOcc m t

/-! ## Concrete documents used by the theorems -/

/-- A fully well-formed workflow (title, Meta line, one complete step,
Finalization). -/
def wellFormedDoc : String :=
  ("# Deploy Service\n## Meta\nversion: 1.0\n## Step 1: Build\n### Task\nBuild the service artifacts now.\n### Save as\n`/tmp/out.json`\n### Success criteria\n- Output file exists\n## Finalization\nClean up resources.\n")

/-- A document whose first heading spells the title label in lower
case. -/
def lowerLabelDoc : String := ("# workflow: X\nbody\n")

/-- A document with a second-level heading after the Finalization
heading. -/
def lateHeadingDoc : String := ("# T\n## Finalization\nDone.\n## Later\nMore")

/-- Two steps, both declared number 1, otherwise with valid tasks. -/
def dupStepsDoc : String :=
  ("# T\n## Step 1: A\n### Task\nDo the first thing now.\n## Step 1: B\n### Task\nDo the second thing now.\n")

/-- Steps declared 1 and 3 (no 2), otherwise fully clean. -/
def gapStepsDoc : String :=
  ("# T\n## Meta\nv: 1\n## Step 1: A\n### Task\nDo something useful here.\n### Save as\n`/tmp/a.json`\n### Success criteria\n- ok\n## Step 3: B\n### Task\nDo more useful things here.\n### Save as\n`/tmp/b.json`\n### Success criteria\n- ok\n## Finalization\nDone here.\n")

/-- Steps declared 2 then 1 (in that document order), neither with a
Save-as subsection. -/
def swappedStepsDoc : String :=
  ("# T\n## Step 2: A\n### Task\nFirst positioned step here.\n## Step 1: B\n### Task\nSecond positioned step here.\n")

/-- A document whose Meta section contains no colon-delimited line. -/
def colonlessMetaDoc : String := ("## Meta\nno colons here")

/-! ## Basic lemmas about strings, lists and message texts -/

theorem strDataAppend (a b : String) : (a ++ b).data = a.data ++ b.data := by
  cases a
  cases b
  rfl

theorem strOfData (cs : List Char) : (strOf cs).data = cs := rfl

theorem stringEta (x : String) : strOf x.data = x := by
  cases x
  rfl

theorem mem_ite_singleton {α : Type} {a b : α} {P : Prop} [Decidable P] :
    (a ∈ if P then [b] else []) ↔ P ∧ a = b := by
  split <;> simp_all

theorem mem_ite_nil_singleton {α : Type} {a b : α} {P : Prop} [Decidable P] :
    (a ∈ if P then [] else [b]) ↔ ¬P ∧ a = b := by
  split <;> simp_all

theorem countOcc_append (m : String) (l₁ l₂ : List String) :
    countOcc m (l₁ ++ l₂) = countOcc m l₁ + countOcc m l₂ := by
  induction l₁ with
  | nil => simp [countOcc]
  | cons x t ih => simp [countOcc, ih, Nat.add_assoc]

theorem countOcc_zero_of_not_mem {m : String} {l : List String} (h : m ∉ l) :
    countOcc m l = 0 := by
  induction l with
  | nil => rfl
  | cons x t ih =>
    have hxm : ¬x = m := fun hx => h (by simp [hx])
    have hmt : m ∉ t := fun hm => h (by simp [hm])
    simp [countOcc, hxm, ih hmt]

theorem mem_flatCat {a : String} {ls : List (List String)} :
    a ∈ flatCat ls ↔ ∃ l ∈ ls, a ∈ l := by
  induction ls with
  | nil => simp [flatCat]
  | cons l t ih => simp [flatCat, List.mem_append, ih]

theorem neOfHead {a b : String} {ca cb : Char} (ha : a.data.head? = some ca)
    (hb : b.data.head? = some cb) (hne : ca ≠ cb) : a ≠ b := by
  intro h
  rw [h] at ha
  rw [hb] at ha
  exact hne (Option.some.inj ha).symm

theorem stepPreHead (r : String) : ((("Step ")) ++ r).data.head? = some 'S' := by
  rw [strDataAppend]
  rfl

theorem seqPreHead (r : String) :
    ((("Step numbers are not sequential. Found: ")) ++ r).data.head? = some 'S' := by
  rw [strDataAppend]
  rfl

theorem metaWarn_ne_stepMsg (r : String) : metaWarnMsg ≠ ("Step ") ++ r :=
  neOfHead rfl (stepPreHead r) (by decide)

theorem metaWarn_ne_seqMsg (r : String) :
    metaWarnMsg ≠ ("Step numbers are not sequential. Found: ") ++ r :=
  neOfHead rfl (seqPreHead r) (by decide)

theorem dupErr_ne_stepMsg (r : String) : dupErrMsg ≠ ("Step ") ++ r :=
  neOfHead rfl (stepPreHead r) (by decide)

theorem gapWarn_ne_stepMsg (r : String) : gapWarnMsg ≠ ("Step ") ++ r :=
  neOfHead rfl (stepPreHead r) (by decide)

theorem gapWarn_ne_seqMsg (r : String) :
    gapWarnMsg ≠ ("Step numbers are not sequential. Found: ") ++ r :=
  neOfHead rfl (seqPreHead r) (by decide)

theorem stepSuffixNe {x y : String} (n : Nat) (hxy : x ≠ y) :
    ("Step ") ++ (toString n ++ x) ≠ ("Step ") ++ (toString n ++ y) := by
  intro h
  apply hxy
  have h2 := congrArg String.data h
  rw [strDataAppend, strDataAppend, strDataAppend, strDataAppend] at h2
  have h4 := List.append_cancel_left (List.append_cancel_left h2)
  cases x
  cases y
  exact congrArg String.mk h4

/-! ## Totality of the parser: the only fallible operation is the
step-number conversion, and its input is always a nonempty digit
string. -/

theorem takeWhileAll (p : Char → Bool) (l : List Char) : (l.takeWhile p).all p = true := by
  induction l with
  | nil => rfl
  | cons c t ih =>
    by_cases h : p c <;> simp [List.takeWhile_cons, h, ih]

theorem wsPlusDigits_digits {cs ds rest : List Char}
    (h : wsPlusDigits cs = some (ds, rest)) : ds ≠ [] ∧ ds.all isDigitChar = true := by
  cases cs with
  | nil => simp [wsPlusDigits] at h
  | cons c tail =>
    simp only [wsPlusDigits] at h
    split at h
    · split at h
      · simp at h
      · rename_i hne
        injection h with h1
        cases h1
        refine ⟨?_, takeWhileAll _ _⟩
        intro hnil
        rw [hnil] at hne
        simp at hne
    · simp at h

theorem tryStepAt_digits {cs : List Char} {x : List Char × List Char × List Char × List Char}
    (h : tryStepAt cs = some x) : x.1 ≠ [] ∧ x.1.all isDigitChar = true := by
  unfold tryStepAt at h
  by_cases h1 : litPre (("##").data) cs
  · rw [if_pos h1] at h
    rcases h2 : wsPlusThen (("step").data) (cs.drop 2) with _ | r1
    · simp [h2] at h
    simp only [h2] at h
    rcases h3 : wsPlusDigits r1 with _ | ⟨digits, r2⟩
    · simp [h3] at h
    simp only [h3] at h
    rcases h4 : colonWsTitle r2 with _ | ⟨titleCap, r3⟩
    · simp [h4] at h
    simp only [h4] at h
    injection h with h5
    rw [← h5]
    exact wsPlusDigits_digits h3
  · rw [if_neg h1] at h
    cases h

theorem stepsScan_digits :
    ∀ (fuel : Nat) (cs : List Char) (x : List Char × List Char × List Char),
      x ∈ stepsScan fuel cs → x.1 ≠ [] ∧ x.1.all isDigitChar = true := by
  intro fuel
  induction fuel with
  | zero =>
    intro cs x hx
    simp [stepsScan] at hx
  | succ f ih =>
    intro cs x hx
    cases cs with
    | nil => simp [stepsScan] at hx
    | cons c rest =>
      rw [stepsScan] at hx
      rcases hts : tryStepAt (c :: rest) with _ | ⟨d, t, b, a⟩
      · rw [hts] at hx
        exact ih rest x hx
      · rw [hts] at hx
        rcases List.mem_cons.mp hx with hx1 | hx2
        · rw [hx1]
          exact tryStepAt_digits hts
        · exact ih a x hx2

theorem digitsToNat_isSome {d : List Char} (h1 : d ≠ []) (h2 : d.all isDigitChar = true) :
    (digitsToNat d).isSome := by
  cases d with
  | nil => exact absurd rfl h1
  | cons c t => simp [digitsToNat, h2]

theorem mapOpt_isSome {α β : Type} (f : α → Option β) :
    ∀ (l : List α), (∀ x ∈ l, (f x).isSome) → ∃ bs, mapOpt l f = some bs := by
  intro l
  induction l with
  | nil => exact fun _ => ⟨[], rfl⟩
  | cons a t ih =>
    intro h
    obtain ⟨b, hb⟩ := Option.isSome_iff_exists.mp (h a (by simp))
    obtain ⟨bs, hbs⟩ := ih (fun x hx => h x (by simp [hx]))
    exact ⟨b :: bs, by simp [mapOpt, hb, hbs]⟩

/-- The parser always succeeds, and its non-step components are exactly
the corresponding searches on the raw text. -/
theorem parseDocument_eq (content : String) :
    ∃ steps, parseDocument content =
      some { title := (titleScan content.data).map (fun c => strOf (pyStrip c))
           , meta := metaOf content
           , context := (sec2Search (("context").data) content.data).map (fun c => strOf (pyStrip c))
           , steps := steps
           , finalization := (finalSearch content.data).map (fun c => strOf (pyStrip c)) } := by
  obtain ⟨steps, hs⟩ := mapOpt_isSome stepOfRaw
    (stepsScan (content.data.length + 1) content.data)
    (fun x hx => by
      obtain ⟨h1, h2⟩ := stepsScan_digits _ _ x hx
      rcases x with ⟨d, t, b⟩
      simpa [stepOfRaw] using digitsToNat_isSome h1 h2)
  refine ⟨steps, ?_⟩
  simp only [parseDocument]
  rw [hs]

/-- The pipeline always produces a result, on a document whose meta
component is `metaOf` of the raw text. -/
theorem validate_eq (content : String) :
    ∃ d, parseDocument content = some d ∧ validate content = some (validateDoc d) ∧
      d.meta = metaOf content := by
  obtain ⟨steps, hs⟩ := parseDocument_eq content
  refine ⟨_, hs, ?_, rfl⟩
  simp only [validate]
  rw [hs]
  rfl

/-! ## Rule-engine message lemmas -/

theorem metaWarn_not_in_stepWarnings (s : Step) (total : Nat) :
    metaWarnMsg ∉ stepWarnings s total := by
  intro h
  simp only [stepWarnings, List.mem_append, mem_ite_singleton] at h
  rcases h with ((⟨_, he⟩ | ⟨_, he⟩) | ⟨_, he⟩) | ⟨_, he⟩ <;>
    exact metaWarn_ne_stepMsg _ he

theorem gapWarn_not_in_stepWarnings (s : Step) (total : Nat) :
    gapWarnMsg ∉ stepWarnings s total := by
  intro h
  simp only [stepWarnings, List.mem_append, mem_ite_singleton] at h
  rcases h with ((⟨_, he⟩ | ⟨_, he⟩) | ⟨_, he⟩) | ⟨_, he⟩ <;>
    exact gapWarn_ne_stepMsg _ he

theorem dupErr_not_in_stepErrors (s : Step) : dupErrMsg ∉ stepErrors s := by
  intro h
  simp only [stepErrors, List.mem_append, mem_ite_nil_singleton] at h
  rcases h with ⟨_, he⟩ | ⟨_, he⟩ <;> exact dupErr_ne_stepMsg _ he

theorem metaWarn_mem_iff (d : Document) :
    (metaWarnMsg ∈ (validateDoc d).warnings) ↔ d.meta = [] := by
  show metaWarnMsg ∈ structureWarnings d ++
      flatCat (d.steps.map (fun s => stepWarnings s d.steps.length)) ++ flowWarnings d.steps ↔ _
  constructor
  · intro h
    rcases List.mem_append.mp h with h | h
    · rcases List.mem_append.mp h with h | h
      · rcases List.mem_append.mp ((by simpa [structureWarnings] using h :
          metaWarnMsg ∈ (if d.meta.isEmpty then [metaWarnMsg] else []) ++
            (if optTruthy d.finalization then [] else [finalWarnMsg]))) with h | h
        · exact List.isEmpty_iff.mp (mem_ite_singleton.mp h).1
        · exact absurd (mem_ite_nil_singleton.mp h).2 (by decide)
      · obtain ⟨l, hl, hml⟩ := mem_flatCat.mp h
        obtain ⟨s, _, rfl⟩ := List.mem_map.mp hl
        exact absurd hml (metaWarn_not_in_stepWarnings s _)
    · exfalso
      simp only [flowWarnings] at h
      split at h
      · simp at h
      · rcases List.mem_append.mp h with h | h
        · exact absurd (mem_ite_nil_singleton.mp h).2 (metaWarn_ne_seqMsg _)
        · exact absurd (mem_ite_singleton.mp h).2 (by decide)
  · intro h
    apply List.mem_append.mpr
    left
    apply List.mem_append.mpr
    left
    show metaWarnMsg ∈ (if d.meta.isEmpty then [metaWarnMsg] else []) ++ _
    apply List.mem_append.mpr
    left
    exact mem_ite_singleton.mpr ⟨by simp [h], rfl⟩

theorem countOcc_dupErr_eq (d : Document) :
    countOcc dupErrMsg (validateDoc d).errors =
      if hasDupNat (d.steps.map Step.number) then 1 else 0 := by
  show countOcc dupErrMsg
      (structureErrors d ++ flatCat (d.steps.map stepErrors) ++ flowErrors d.steps) = _
  rw [countOcc_append, countOcc_append]
  have h1 : countOcc dupErrMsg (structureErrors d) = 0 := by
    apply countOcc_zero_of_not_mem
    intro h
    simp only [structureErrors, List.mem_append, mem_ite_nil_singleton, mem_ite_singleton] at h
    rcases h with ⟨_, he⟩ | ⟨_, he⟩ <;> exact absurd he (by decide)
  have h2 : countOcc dupErrMsg (flatCat (d.steps.map stepErrors)) = 0 := by
    apply countOcc_zero_of_not_mem
    intro h
    obtain ⟨l, hl, hml⟩ := mem_flatCat.mp h
    obtain ⟨s, _, rfl⟩ := List.mem_map.mp hl
    exact absurd hml (dupErr_not_in_stepErrors s)
  have h3 : countOcc dupErrMsg (flowErrors d.steps) =
      if hasDupNat (d.steps.map Step.number) then 1 else 0 := by
    simp only [flowErrors]
    by_cases hemp : d.steps.isEmpty
    · rw [List.isEmpty_iff] at hemp
      simp [hemp, hasDupNat, countOcc]
    · simp only [hemp, if_false]
      by_cases hdup : hasDupNat (d.steps.map Step.number) <;>
        simp [hdup, countOcc]
  rw [h1, h2, h3]
  simp

theorem countOcc_gapWarn_le (d : Document) :
    countOcc gapWarnMsg (validateDoc d).warnings ≤ 1 := by
  show countOcc gapWarnMsg (structureWarnings d ++
      flatCat (d.steps.map (fun s => stepWarnings s d.steps.length)) ++ flowWarnings d.steps) ≤ 1
  rw [countOcc_append, countOcc_append]
  have h1 : countOcc gapWarnMsg (structureWarnings d) = 0 := by
    apply countOcc_zero_of_not_mem
    intro h
    simp only [structureWarnings, List.mem_append, mem_ite_nil_singleton, mem_ite_singleton] at h
    rcases h with ⟨_, he⟩ | ⟨_, he⟩ <;> exact absurd he (by decide)
  have h2 : countOcc gapWarnMsg
      (flatCat (d.steps.map (fun s => stepWarnings s d.steps.length))) = 0 := by
    apply countOcc_zero_of_not_mem
    intro h
    obtain ⟨l, hl, hml⟩ := mem_flatCat.mp h
    obtain ⟨s, _, rfl⟩ := List.mem_map.mp hl
    exact absurd hml (gapWarn_not_in_stepWarnings s _)
  have h3 : countOcc gapWarnMsg (flowWarnings d.steps) ≤ 1 := by
    simp only [flowWarnings]
    split
    · simp [countOcc]
    · rw [countOcc_append]
      have ha : countOcc gapWarnMsg
          (if sortNats (d.steps.map Step.number) = List.range' 1 d.steps.length then []
           else [seqWarnMsg (sortNats (d.steps.map Step.number)) (List.range' 1 d.steps.length)]) = 0 := by
        apply countOcc_zero_of_not_mem
        intro h
        exact absurd (mem_ite_nil_singleton.mp h).2 (gapWarn_ne_seqMsg _)
      have hb : countOcc gapWarnMsg
          (if hasGap (sortNats (d.steps.map Step.number)) then [gapWarnMsg] else []) ≤ 1 := by
        split <;> simp [countOcc]
      omega
  omega

theorem noSaveAs_ne_brief (n : Nat) : noSaveAsMsg n ≠ briefTaskMsg n :=
  stepSuffixNe n (by decide)

theorem noSaveAs_ne_noCriteria (n : Nat) : noSaveAsMsg n ≠ noCriteriaMsg n :=
  stepSuffixNe n (by decide)

theorem noSaveAs_ne_notAbs (n : Nat) : noSaveAsMsg n ≠ notAbsMsg n :=
  stepSuffixNe n (by decide)

theorem noSaveAs_mem_iff (s : Step) (total : Nat) :
    noSaveAsMsg s.number ∈ stepWarnings s total ↔
      (optTruthy s.save_as = false ∧ s.number < total) := by
  simp only [stepWarnings, List.mem_append, mem_ite_singleton]
  constructor
  · rintro (((⟨hc, he⟩ | ⟨hc, he⟩) | ⟨hc, he⟩) | ⟨hc, he⟩)
    · exact absurd he (noSaveAs_ne_brief s.number)
    · exact ⟨by simpa using hc.1, hc.2⟩
    · exact absurd he (noSaveAs_ne_noCriteria s.number)
    · exact absurd he (noSaveAs_ne_notAbs s.number)
  · rintro ⟨h1, h2⟩
    left
    left
    right
    exact ⟨⟨by simp [h1], h2⟩, by trivial⟩

/-! ## Lemmas about stripping, line splitting, and the fence scan -/

theorem dropWhileHeadNeg {p : Char → Bool} {l : List Char} {a : Char} {as : List Char}
    (h : l.dropWhile p = a :: as) : p a = false := by
  induction l with
  | nil => cases h
  | cons c t ih =>
    by_cases hc : p c
    · rw [List.dropWhile_cons_of_pos hc] at h
      exact ih h
    · rw [List.dropWhile_cons_of_neg hc] at h
      injection h with h1 _
      rw [← h1]
      simpa using hc

theorem pyRstrip_eq_rdropWhile (cs : List Char) : pyRstrip cs = List.rdropWhile pyWs cs := rfl

theorem pyLstrip_pyRstrip {u : List Char} (hu : pyLstrip u = u) :
    pyLstrip (pyRstrip u) = pyRstrip u := by
  rcases hr : pyRstrip u with _ | ⟨b, bs⟩
  · rfl
  · cases u with
    | nil => simp [pyRstrip] at hr
    | cons a as =>
      have ha : pyWs a = false := by
        have : (a :: as).dropWhile pyWs = a :: as := hu
        cases hh : (a :: as).dropWhile pyWs with
        | nil => rw [hh] at this; cases this
        | cons x xs =>
          have hx := dropWhileHeadNeg hh
          rw [hh] at this
          injection this with h1 _
          rw [← h1]
          exact hx
      have hpre : pyRstrip (a :: as) <+: a :: as := by
        rw [pyRstrip_eq_rdropWhile]
        exact List.rdropWhile_prefix pyWs (a :: as)
      rw [hr] at hpre
      obtain ⟨tl, htl⟩ := hpre
      have hb : b = a := by
        simpa using congrArg List.head? htl
      rw [hb]
      exact List.dropWhile_cons_of_neg (by simp [ha])

theorem pyStrip_idem (cs : List Char) : pyStrip (pyStrip cs) = pyStrip cs := by
  show pyRstrip (pyLstrip (pyRstrip (pyLstrip cs))) = _
  have h1 : pyLstrip (pyLstrip cs) = pyLstrip cs := by
    show (List.dropWhile pyWs (List.dropWhile pyWs cs)) = _
    rw [List.dropWhile_idempotent]
    rfl
  rw [pyLstrip_pyRstrip h1]
  show List.rdropWhile pyWs (List.rdropWhile pyWs (pyLstrip cs)) = _
  rw [List.rdropWhile_idempotent]
  rfl

theorem pyStrip_snoc_ws {w : Char} (hw : pyWs w = true) (c : List Char) :
    pyStrip (c ++ [w]) = pyStrip c := by
  show pyRstrip ((c ++ [w]).dropWhile pyWs) = pyRstrip (c.dropWhile pyWs)
  rw [List.dropWhile_append]
  by_cases he : (c.dropWhile pyWs).isEmpty = true
  · rw [if_pos he]
    simp [List.dropWhile_cons, hw, List.isEmpty_iff.mp he]
  · rw [if_neg he]
    rw [pyRstrip_eq_rdropWhile, pyRstrip_eq_rdropWhile, List.rdropWhile_concat_pos _ _ _ hw]

theorem pyStrip_subset {a : Char} {cs : List Char} (h : a ∈ pyStrip cs) : a ∈ cs := by
  have h1 : a ∈ pyLstrip cs := by
    have hpre : pyStrip cs <+: pyLstrip cs := by
      rw [show pyStrip cs = pyRstrip (pyLstrip cs) from rfl, pyRstrip_eq_rdropWhile]
      exact List.rdropWhile_prefix pyWs (pyLstrip cs)
    exact hpre.subset h
  exact (List.dropWhile_sublist pyWs).subset h1

theorem splitNl_no_nl {u : List Char} (h : ∀ a ∈ u, a ≠ '\n') : splitNl u = [u] := by
  induction u with
  | nil => rfl
  | cons c t ih =>
    have hc : ¬c = '\n' := h c (by simp)
    have ht := ih (fun a ha => h a (by simp [ha]))
    simp [splitNl, hc, ht]

theorem fenceGo_inside : ∀ (c : List Char) (acc : List Char),
    c.all (fun ch => ch ≠ '`') = true →
    ∀ rest, fenceGo (some acc) (c ++ ('`' :: '`' :: '`' :: rest)) =
      (acc.reverse ++ c) :: fenceGo none rest := by
  intro c
  induction c with
  | nil =>
    intro acc _ rest
    simp [fenceGo]
  | cons ch t ih =>
    intro acc hall rest
    have hch : ch ≠ '`' := by
      have := List.all_eq_true.mp hall ch (by simp)
      simpa using this
    have ht : t.all (fun x => x ≠ '`') = true := by
      rw [List.all_eq_true] at hall ⊢
      exact fun x hx => hall x (by simp [hx])
    rw [List.cons_append, fenceGo.eq_def]
    split
    · rename_i heq _
      exact absurd heq (by simp)
    · rename_i heq _
      exact absurd heq (by simp)
    · rename_i heq _
      exact absurd heq (by simp)
    · rename_i heq _
      exact absurd heq (by simp)
    · rename_i heq _
      exact absurd heq (by simp)
    · rename_i h1 h2
      injection h2 with h2a _
      exact absurd h2a hch
    · rename_i h1 h2
      injection h1 with h1a
      injection h2 with h2a h2b
      subst h1a
      subst h2a
      subst h2b
      rw [ih (ch :: acc) ht rest]
      simp
    · rename_i h1 h2
      exact absurd h2 (by simp)

/-! ## Title extraction lemmas -/

theorem dotRun_append_no_nl : ∀ (t : List Char), t.all (fun c => c ≠ '\n') = true →
    ∀ s, dotRun (t ++ ('\n' :: s)) = t := by
  intro t
  induction t with
  | nil =>
    intro _ s
    simp [dotRun, List.takeWhile_cons]
  | cons c u ih =>
    intro h s
    have hc : ¬c = '\n' := by simpa using List.all_eq_true.mp h c (by simp)
    have hu : u.all (fun c => c ≠ '\n') = true := by
      rw [List.all_eq_true] at h ⊢
      exact fun x hx => h x (by simp [hx])
    show (c :: (u ++ ('\n' :: s))).takeWhile (fun c => c ≠ '\n') = c :: u
    rw [List.takeWhile_cons_of_pos (by simpa using hc)]
    exact congrArg (c :: ·) (ih hu s)

theorem wsStarDotPlus_spec : ∀ (t : List Char), t.dropWhile pyWs ≠ [] →
    t.all (fun c => c ≠ '\n') = true →
    ∀ s, wsStarDotPlus (t ++ ('\n' :: s)) = some (t.dropWhile pyWs) := by
  intro t
  induction t with
  | nil =>
    intro h _ _
    exact absurd rfl h
  | cons c u ih =>
    intro h hall s
    have hu : u.all (fun c => c ≠ '\n') = true := by
      rw [List.all_eq_true] at hall ⊢
      exact fun x hx => hall x (by simp [hx])
    by_cases hw : pyWs c = true
    · have hd : (c :: u).dropWhile pyWs = u.dropWhile pyWs := List.dropWhile_cons_of_pos hw
      rw [hd] at h ⊢
      show wsStarDotPlus (c :: (u ++ ('\n' :: s))) = some (u.dropWhile pyWs)
      simp only [wsStarDotPlus]
      rw [if_pos hw, ih h hu s]
    · have hd : (c :: u).dropWhile pyWs = c :: u := List.dropWhile_cons_of_neg hw
      rw [hd]
      show wsStarDotPlus (c :: (u ++ ('\n' :: s))) = some (c :: u)
      simp only [wsStarDotPlus]
      rw [if_neg hw]
      refine congrArg some ?_
      rw [← List.cons_append]
      exact dotRun_append_no_nl (c :: u) hall s

theorem pyStrip_pyLstrip (t : List Char) : pyStrip (pyLstrip t) = pyStrip t := by
  show pyRstrip (pyLstrip (pyLstrip t)) = _
  have h1 : pyLstrip (pyLstrip t) = pyLstrip t := by
    show (List.dropWhile pyWs (List.dropWhile pyWs t)) = _
    rw [List.dropWhile_idempotent]
    rfl
  rw [h1]
  rfl

theorem titleScan_label {t : List Char} (h1 : t.dropWhile pyWs ≠ [])
    (h2 : t.all (fun c => c ≠ '\n') = true) (s : List Char) :
    titleScan (("# Workflow: ").data ++ (t ++ ('\n' :: s))) = some (t.dropWhile pyWs) := by
  have hall : (' ' :: t).all (fun c => c ≠ '\n') = true := by
    rw [List.all_cons, h2]
    rfl
  have hws : wsStarDotPlus ((' ' :: t) ++ ('\n' :: s)) = some ((' ' :: t).dropWhile pyWs) :=
    wsStarDotPlus_spec (' ' :: t)
      (by rw [List.dropWhile_cons_of_pos (by decide)]; exact h1) hall s
  have hdrop : (' ' :: t).dropWhile pyWs = t.dropWhile pyWs :=
    List.dropWhile_cons_of_pos (by decide)
  have htry : titleTryAt (("# Workflow: ").data ++ (t ++ ('\n' :: s))) =
      some (t.dropWhile pyWs) := by
    show titleCont (("Workflow: ").data ++ (t ++ ('\n' :: s))) = some (t.dropWhile pyWs)
    simp only [titleCont]
    rw [if_pos (show litPre wfLabel (("Workflow: ").data ++ (t ++ ('\n' :: s))) = true from rfl)]
    rw [show (("Workflow: ").data ++ (t ++ ('\n' :: s))).drop wfLabel.length =
      (' ' :: t) ++ ('\n' :: s) from rfl]
    rw [hws, hdrop]
  show (match titleTryAt (("# Workflow: ").data ++ (t ++ ('\n' :: s))) with
    | some r => some r
    | none => titleScanAux (("# Workflow: ").data ++ (t ++ ('\n' :: s)))) = _
  rw [htry]

/-! ## Finalization capture and dependency extraction lemmas -/

theorem finalSearch_c6 (s : List Char) :
    finalSearch (("# T\n## Finalization\n").data ++ (("Done.\n## Later\n").data ++ s)) =
      some (("Done.\n## Later\n").data ++ s) := rfl

theorem fenceGo_c4 (c : List Char) (h : c.all (fun ch => ch ≠ '`') = true) :
    fenceGo none (("Install as follows:\n```\n").data ++
        (c ++ ("\n```\nAfter text\n```python\nignored cmd\n```\n").data)) =
      [c ++ ('\n' :: [])] := by
  have h0 : fenceGo none (("Install as follows:\n```\n").data ++
      (c ++ ("\n```\nAfter text\n```python\nignored cmd\n```\n").data)) =
      fenceGo (some []) (c ++ ("\n```\nAfter text\n```python\nignored cmd\n```\n").data) := rfl
  rw [h0]
  have h1 : (c ++ ("\n```\nAfter text\n```python\nignored cmd\n```\n").data) =
      ((c ++ ('\n' :: [])) ++
        ('`' :: '`' :: '`' :: (("\nAfter text\n```python\nignored cmd\n```\n").data))) := by
    simp
  rw [h1]
  rw [fenceGo_inside (c ++ ('\n' :: [])) []
    (by rw [List.all_append, h]; rfl)
    (("\nAfter text\n```python\nignored cmd\n```\n").data)]
  rfl

theorem depsOf_c4 (c : List Char) (h1 : c.all (fun ch => ch ≠ '`') = true)
    (h2 : c.all (fun ch => ch ≠ '\n') = true) (h3 : pyStrip c ≠ []) :
    depsOf (("Install as follows:\n```\n").data ++
        (c ++ ("\n```\nAfter text\n```python\nignored cmd\n```\n").data)) =
      [strOf (pyStrip c)] := by
  simp only [depsOf]
  rw [fenceGo_c4 c h1]
  simp only [List.flatMap_cons, List.flatMap_nil, List.append_nil]
  rw [pyStrip_snoc_ws (show pyWs '\n' = true by decide) c]
  rw [splitNl_no_nl (fun a ha => by
    simpa using List.all_eq_true.mp h2 a (pyStrip_subset ha))]
  simp only [List.filterMap_cons, List.filterMap_nil]
  rw [pyStrip_idem, if_neg (by simpa [List.isEmpty_iff] using h3)]

/-! ## The claims -/

/-- Claim C1 — validation is total: for every input string, however
malformed, parsing yields some `Document` (it never fails) and the full
validate run yields a `ValidationResult`; there is no fatal failure
path inside the core. -/
theorem c1_validation_total (content : String) :
    ∃ d r, parseDocument content = some d ∧ validate content = some r := by
  obtain ⟨d, hd, hv, _⟩ := validate_eq content
  exact ⟨d, validateDoc d, hd, hv⟩

/-- Claim C2 — round-trip on well-formed input: a document with title
`Deploy Service`, one Meta line `version: 1.0`, one step numbered 1
with a Task of at least 10 characters, a Save as of `/tmp/out.json`,
one success-criterion bullet, and a Finalization section yields
`valid = true` with empty errors and empty warnings. -/
theorem c2_round_trip :
    validate wellFormedDoc =
      some ⟨true, [], [], ⟨some ("Deploy Service"), 1, true, false, true⟩⟩ := rfl

/-- Claim C3, counterexample — the title pattern carries no
`re.IGNORECASE`, so a lower-case `# workflow: X` heading is *not*
stripped of its label: the extracted title is `workflow: X`, not `X`,
refuting the claimed case-insensitive label match. -/
theorem c3_label_case_counterexample :
    (parseDocument lowerLabelDoc).map Document.title = some (some ("workflow: X")) ∧
      some (some (("workflow: X") : String)) ≠ some (some (("X") : String)) :=
  ⟨rfl, by decide⟩

/-- Claim C3, amended — the `Workflow:` label is matched
case-sensitively: for every document whose first line reads
`# Workflow: X` with the label spelled exactly so (title text nonblank
and newline-free), the extracted title is X trimmed; other casings of
the label are kept as part of the title (see the counterexample). -/
theorem c3_label_case_amended (t : List Char) (h1 : t.dropWhile pyWs ≠ [])
    (h2 : t.all (fun c => c ≠ '\n') = true) (s : List Char) :
    ∃ d, parseDocument (strOf (("# Workflow: ").data ++ (t ++ ('\n' :: s)))) = some d ∧
      d.title = some (strOf (pyStrip t)) := by
  obtain ⟨steps, hd⟩ := parseDocument_eq (strOf (("# Workflow: ").data ++ (t ++ ('\n' :: s))))
  refine ⟨_, hd, ?_⟩
  show (titleScan ((strOf (("# Workflow: ").data ++ (t ++ ('\n' :: s)))).data)).map
      (fun c => strOf (pyStrip c)) = _
  rw [strOfData, titleScan_label h1 h2 s]
  show some (strOf (pyStrip (pyLstrip t))) = _
  rw [pyStrip_pyLstrip]

/-- Witness for the amended C3 at the concrete title `Deploy Service`. -/
theorem c3_label_case_witness :
    ((("Deploy Service").data.dropWhile pyWs ≠ []) ∧
      (("Deploy Service").data.all (fun c => c ≠ '\n') = true)) ∧
    (∃ d, parseDocument (strOf (("# Workflow: ").data ++
        (("Deploy Service").data ++ ('\n' :: (("body\n").data))))) = some d ∧
      d.title = some (strOf (pyStrip (("Deploy Service").data)))) :=
  ⟨⟨by decide, by decide⟩,
    c3_label_case_amended (("Deploy Service").data) (by decide) (by decide) (("body\n").data)⟩

/-- Claim C4, counterexample — the fence pattern accepts only the tags
`bash`, `sh` or none: a Dependencies subsection whose only fenced block
is tagged `python` yields an empty dependency list, refuting the claim
that lines of a block with any tag become entries. -/
theorem c4_fence_tag_counterexample :
    (parseStep 1 ("T")
        (("### Dependencies\n```python\npip install x\n```\n").data)).dependencies = [] ∧
      ([] : List String) ≠ [("pip install x")] :=
  ⟨rfl, by decide⟩

/-- Claim C4, amended — only fenced blocks with an empty tag or the
tags `bash`/`sh` are retained: each nonblank line of such a block
becomes one entry (stripped, in order, concatenated across blocks),
while prose outside fences and blocks with any other tag (e.g.
`python`) contribute nothing. -/
theorem c4_fence_tag_amended (c : List Char) (h1 : c.all (fun ch => ch ≠ '`') = true)
    (h2 : c.all (fun ch => ch ≠ '\n') = true) (h3 : pyStrip c ≠ []) :
    depsOf (("Install as follows:\n```\n").data ++
        (c ++ ("\n```\nAfter text\n```python\nignored cmd\n```\n").data)) =
      [strOf (pyStrip c)] ∧
    (parseStep 1 ("T")
        (("### Dependencies\n```bash\na\nb\n```\ntext\n```sh\nc\nd\n```\n").data)).dependencies =
      [("a"), ("b"), ("c"), ("d")] :=
  ⟨depsOf_c4 c h1 h2 h3, rfl⟩

/-- Witness for the amended C4 at the concrete command `pip install x`. -/
theorem c4_fence_tag_witness :
    ((("pip install x").data.all (fun ch => ch ≠ '`') = true ∧
      ("pip install x").data.all (fun ch => ch ≠ '\n') = true) ∧
      pyStrip (("pip install x").data) ≠ []) ∧
    (depsOf (("Install as follows:\n```\n").data ++
        ((("pip install x").data) ++ ("\n```\nAfter text\n```python\nignored cmd\n```\n").data)) =
      [strOf (pyStrip (("pip install x").data))] ∧
    (parseStep 1 ("T")
        (("### Dependencies\n```bash\na\nb\n```\ntext\n```sh\nc\nd\n```\n").data)).dependencies =
      [("a"), ("b"), ("c"), ("d")]) :=
  ⟨⟨⟨by decide, by decide⟩, by decide⟩,
    c4_fence_tag_amended (("pip install x").data) (by decide) (by decide) (by decide)⟩

/-- Claim C5, counterexample — the arrow-split check is only
`len(parts) == 2` and never tests segment non-emptiness: the line
`→ retry` is accepted with an *empty* condition segment rather than
being dropped, refuting the claimed non-emptiness requirement. -/
theorem c5_arrow_empty_counterexample :
    (parseStep 1 ("T")
        (("### If something goes wrong\n→ retry\n").data)).error_handling =
      [((""), ("retry"))] ∧
      ([((("") : String), (("retry") : String))] : List (String × String)) ≠ [] :=
  ⟨rfl, by decide⟩

/-- Claim C5, amended — a line contributes a condition/action pair if
and only if it contains an arrow token and splitting the stripped,
bullet-lstripped line on arrow tokens yields exactly two segments;
segments may be empty (emptiness is not checked), and every other line
is silently dropped. -/
theorem c5_arrow_split_amended (line : List Char) :
    (∃ p, errLine line = some p) ↔
      (arrowIn line = true ∧
        (arrowSplit (lstripCh [' ', '-'] (pyStrip line))).length = 2) := by
  by_cases ha : arrowIn line = true
  · rcases hsp : arrowSplit (lstripCh [' ', '-'] (pyStrip line)) with _ | ⟨a, _ | ⟨b, _ | ⟨x, xs⟩⟩⟩ <;>
      simp [errLine, ha, hsp]
  · simp [errLine, ha]

/-- Claim C6, counterexample — the Finalization pattern captures
`(.*)$` under DOTALL, running to the end of the document: a later
second-level heading's text is *included* in the finalization field,
refuting the claimed stop at the next heading. -/
theorem c6_finalization_counterexample :
    (parseDocument lateHeadingDoc).map Document.finalization =
      some (some ("Done.\n## Later\nMore")) ∧
      some (some (("Done.\n## Later\nMore") : String)) ≠ some (some (("Done.") : String)) :=
  ⟨rfl, by decide⟩

/-- Claim C6, amended — Meta and Context stop at the next second-level
heading or horizontal rule, but the Finalization body runs to the end
of the document: for every document tail `s`, the extracted
finalization keeps the later `## Later` section's text, while a Meta
body does stop at the next heading. -/
theorem c6_finalization_amended (s : List Char) :
    (∃ d, parseDocument (strOf (("# T\n## Finalization\n").data ++
        (("Done.\n## Later\n").data ++ s))) = some d ∧
      d.finalization = some (strOf (pyStrip (("Done.\n## Later\n").data ++ s)))) ∧
    metaOf ("# T\n## Meta\nk: v\n## Next\nx") = [((("k") : String), (("v") : String))] := by
  constructor
  · obtain ⟨steps, hd⟩ := parseDocument_eq (strOf (("# T\n## Finalization\n").data ++
      (("Done.\n## Later\n").data ++ s)))
    refine ⟨_, hd, ?_⟩
    show (finalSearch ((strOf (("# T\n## Finalization\n").data ++
        (("Done.\n## Later\n").data ++ s))).data)).map (fun c => strOf (pyStrip c)) = _
    rw [strOfData, finalSearch_c6 s]
    rfl
  · rfl

/-- Claim C7 — the missing-save-as warning for a step is emitted if and
only if the step's `save_as` is Python-falsy (absent or empty) and the
step's *declared* number is strictly less than the total step count;
concretely, in a document whose steps are declared 2 then 1 (neither
with a Save as), the positionally-last step declared 1 gets the warning
and the positionally-first step declared 2 does not. -/
theorem c7_save_as_declared_number :
    (∀ (s : Step) (total : Nat),
      noSaveAsMsg s.number ∈ stepWarnings s total ↔
        (optTruthy s.save_as = false ∧ s.number < total)) ∧
    (validate swappedStepsDoc).map
      (fun r => (r.warnings.contains (noSaveAsMsg 1), r.warnings.contains (noSaveAsMsg 2))) =
      some (true, false) :=
  ⟨noSaveAs_mem_iff, rfl⟩

/-- Claim C8 — the duplicate-step-numbers error appears exactly once in
a document's error list whenever some declared number repeats, and not
at all otherwise; two step headings both labeled `Step 1` produce
exactly one such error (indeed it is the only error of that document). -/
theorem c8_duplicate_numbers :
    (∀ d : Document, countOcc dupErrMsg (validateDoc d).errors =
      if hasDupNat (d.steps.map Step.number) then 1 else 0) ∧
    (validate dupStepsDoc).map ValidationResult.errors = some [dupErrMsg] :=
  ⟨countOcc_dupErr_eq, rfl⟩

/-- Claim C9 — steps declared 1 and 3 (no 2) produce the not-sequential
warning and the gap warning but no error from the numbering; the gap
warning appears at most once in any document's warning list. -/
theorem c9_gap_numbering :
    (∀ d : Document, countOcc gapWarnMsg (validateDoc d).warnings ≤ 1) ∧
    (validate gapStepsDoc).map (fun r => (r.errors, r.warnings)) =
      some ([], [seqWarnMsg [1, 3] [1, 2], gapWarnMsg]) :=
  ⟨countOcc_gapWarn_le, rfl⟩

/-- Claim C10 — the advisory missing-Meta warning is emitted, and
`info.has_meta` is false, exactly when the parsed meta map is empty —
regardless of whether a `## Meta` heading appears in the document (a
colon-less Meta section is indistinguishable from an absent one). -/
theorem c10_meta_emptiness (content : String) (r : ValidationResult)
    (h : validate content = some r) :
    (metaWarnMsg ∈ r.warnings ↔ metaOf content = []) ∧
    (r.info.has_meta = false ↔ metaOf content = []) := by
  obtain ⟨d, _, hv, hm⟩ := validate_eq content
  rw [h] at hv
  injection hv with hr
  subst hr
  constructor
  · rw [← hm]
    exact metaWarn_mem_iff d
  · rw [show (validateDoc d).info.has_meta = !d.meta.isEmpty from rfl, ← hm]
    simp [List.isEmpty_iff]

/-- Witness for C10 at a document whose Meta section has no
colon-delimited line. -/
theorem c10_meta_emptiness_witness :
    (metaWarnMsg ∈ (⟨false, [titleErrMsg, noStepsErrMsg], [metaWarnMsg, finalWarnMsg],
        ⟨none, 0, false, false, false⟩⟩ : ValidationResult).warnings ↔
      metaOf colonlessMetaDoc = []) ∧
    ((⟨false, [titleErrMsg, noStepsErrMsg], [metaWarnMsg, finalWarnMsg],
        ⟨none, 0, false, false, false⟩⟩ : ValidationResult).info.has_meta = false ↔
      metaOf colonlessMetaDoc = []) :=
  c10_meta_emptiness colonlessMetaDoc _ rfl
